import Mathlib

/-!
Verification of the PFVisualizer grid/worker pipeline (src/WorldMap.js and the
main consumer script) against its natural-language specification.

The JavaScript code is shallowly embedded: `Map` objects become insertion-order
association lists (`List (Int × α)`) with JS `Map.has/get/set` semantics,
cell-state color strings become the `Cell` enumeration, and methods that mutate
`this` become functions returning the updated structure.  Presentation-only
state (canvas position, internal frame buffers, `changedCells`, DOM elements)
is omitted; it never feeds back into the grid, batching or locking logic.
-/

namespace PFV

/-- Cell states.  The source `CELL_TYPES` object maps seven names to seven
distinct color strings; since the strings are pairwise distinct, state equality
in JS coincides with constructor equality here. -/
inductive Cell where
  | WALL
  | EMPTY
  | START
  | GOAL
  | CALCULATING
  | CALCULATED
  | PATH
deriving DecidableEq

/-- `SOLID_CELL_TYPES` from the source: only `WALL` is solid. -/
def SOLID_CELL_TYPES (c : Cell) : Bool :=
  c == Cell.WALL

/-- `PERMANENT_CELL_TYPES` from the source: `START`, `GOAL` and `WALL` are
permanent and cannot be changed. -/
def PERMANENT_CELL_TYPES (c : Cell) : Bool :=
  c == Cell.START || c == Cell.GOAL || c == Cell.WALL

/-- JS `Map.get`/`Map.has`: first (and only, keys are unique) entry with the
given key. -/
def mapFind {α : Type} (m : List (Int × α)) (k : Int) : Option α :=
  match m with
  | [] => none
  | (k', v) :: rest => if k' = k then some v else mapFind rest k

/-- JS `Map.set`: replace the value at an existing key in place, otherwise
append the new entry at the end (JS maps preserve insertion order). -/
def mapSet {α : Type} (m : List (Int × α)) (k : Int) (v : α) : List (Int × α) :=
  match m with
  | [] => [(k, v)]
  | (k', v') :: rest => if k' = k then (k, v) :: rest else (k', v') :: mapSet rest k v

/-- The `WorldMap` class (src/WorldMap.js).  `pos`, `showBounds`,
`internalFrameBuffer` and `changedCells` are drawing-only and omitted. -/
structure WorldMap where
  sizeX : Int
  sizeY : Int
  hasBoundary : Bool
  map : List (Int × List (Int × Cell))
deriving DecidableEq

/-- `WorldMap.getCell`: boundary check first, then the nested sparse lookup,
defaulting to `EMPTY`. -/
def WorldMap.getCell (w : WorldMap) (x y : Int) : Cell :=
  if w.hasBoundary ∧ (x < 0 ∨ x ≥ w.sizeX ∨ y < 0 ∨ y ≥ w.sizeY) then Cell.WALL
  else
    match mapFind w.map x with
    | some col =>
      match mapFind col y with
      | some cell => cell
      | none => Cell.EMPTY
    | none => Cell.EMPTY

/-- `WorldMap.putCell`: reject the write if the current cell is permanent,
otherwise store the new state (creating the column on demand, exactly as the
JS `has`/`set` pair does) and return it together with the updated map. -/
def WorldMap.putCell (w : WorldMap) (cell : Cell) (x y : Int) : Cell × WorldMap :=
  let selectedCell := w.getCell x y
  if PERMANENT_CELL_TYPES selectedCell then (selectedCell, w)
  else
    let col := (mapFind w.map x).getD []
    (cell, { w with map := mapSet w.map x (mapSet col y cell) })

/-- `WorldMap.clearMap`: drop all stored cells, keep size and boundary flag. -/
def WorldMap.clearMap (w : WorldMap) : WorldMap :=
  { w with map := [] }

/-- `WorldMap.isCellType`. -/
def WorldMap.isCellType (w : WorldMap) (cell : Cell) (x y : Int) : Bool :=
  w.getCell x y == cell

/-- `WorldMap.isCellSolid`. -/
def WorldMap.isCellSolid (w : WorldMap) (x y : Int) : Bool :=
  SOLID_CELL_TYPES (w.getCell x y)

/-- `WorldMap.getNeighbours`.  The four orthogonal offsets are pushed first;
when `diagonals` is requested the source pushes the same four orthogonal
offsets a second time (lines 250-255 of src/WorldMap.js), then solid cells are
filtered out. -/
def WorldMap.getNeighbours (w : WorldMap) (x y : Int) (diagonals : Bool) : List (Int × Int) :=
  let possibleNeighbours :=
    [(x + 1, y), (x - 1, y), (x, y + 1), (x, y - 1)] ++
      (if diagonals then [(x + 1, y), (x - 1, y), (x, y + 1), (x, y - 1)] else [])
  possibleNeighbours.filter (fun n => !(w.isCellSolid n.1 n.2))

/-- `WorldMap.mapToNodePairArray`: flatten the nested map in iteration order,
skipping explicitly stored `EMPTY` cells when `ignoreEmptyCells` is set. -/
def WorldMap.mapToNodePairArray (w : WorldMap) (ignoreEmptyCells : Bool) :
    List ((Int × Int) × Cell) :=
  w.map.flatMap (fun p =>
    p.2.filterMap (fun q =>
      if !ignoreEmptyCells || q.2 != Cell.EMPTY then some ((p.1, q.1), q.2) else none))

/-- `WorldMap.hollowRect`: the border columns write a full vertical line, the
interior columns write only the top and bottom cells; every write goes through
`putCell`. -/
def WorldMap.hollowRect (wm : WorldMap) (cell : Cell) (x y w h : Int) : WorldMap :=
  (List.range w.toNat).foldl
    (fun m relXn =>
      let relX : Int := (relXn : Int)
      if relX = 0 ∨ relX = w - 1 then
        (List.range h.toNat).foldl
          (fun m2 relYn => (m2.putCell cell (x + relX) (y + (relYn : Int))).2) m
      else
        let m1 := (m.putCell cell (x + relX) y).2
        ((m1.putCell cell (x + relX) (y + h - 1)).2))
    wm

/-- The nested sparse lookup on its own (no boundary check): the stored state
at a coordinate, if any. -/
def WorldMap.storedCell (w : WorldMap) (x y : Int) : Option Cell :=
  (mapFind w.map x).bind (fun col => mapFind col y)

/-- One column's contribution to `mapToNodePairArray true`: its non-`EMPTY`
entries tagged with the column key. -/
def pairsOfCol (k : Int) (col : List (Int × Cell)) : List ((Int × Int) × Cell) :=
  col.filterMap (fun q => if q.2 != Cell.EMPTY then some ((k, q.1), q.2) else none)

/-- Well-formedness that JS `Map` objects guarantee by construction: keys are
unique at both nesting levels. -/
abbrev WorldMap.WF (w : WorldMap) : Prop :=
  (w.map.map Prod.fst).Nodup ∧ ∀ p ∈ w.map, (p.2.map Prod.fst).Nodup

/-- Replaying a snapshot: each `(coordinate, state)` pair goes through
`putCell`, in order. -/
def replayPairs (w : WorldMap) (ps : List ((Int × Int) × Cell)) : WorldMap :=
  ps.foldl (fun m p => (m.putCell p.2 p.1.1 p.1.2).2) w

/-- Messages posted by the worker side over the channel.  The source tags each
message array with a leading string; the four tags handled by the consumer's
listener become constructors, and the flattened `(state, x, y)` payload of
`map_add_cells` becomes a list of triples. -/
inductive WorkerMsg where
  | map_add_cells (cells : List (Cell × Int × Int))
  | map_reset
  | lock_gen
  | unlock_gen
deriving DecidableEq

/-- The `WorkerWorldMap` subclass (src/WorldMap.js lines 269-317).  The JS
`cellQueue` is a flat array holding three slots per queued mutation; here it is
the list of triples, so the JS length test `cellQueue.length >= maxCellQueue`
becomes `3 * cellQueue.length ≥ maxCellQueue`.  `workerGlobal.postMessage`
becomes the list of messages returned alongside the new state. -/
structure WorkerWorldMap where
  world : WorldMap
  cellQueue : List (Cell × Int × Int)
  alwaysUpdate : Bool
  maxCellQueue : Nat
deriving DecidableEq

/-- `WorkerWorldMap.sendCellQueue`: post the queued cells as one
`map_add_cells` message and clear the queue. -/
def WorkerWorldMap.sendCellQueue (w : WorkerWorldMap) : WorkerWorldMap × List WorkerMsg :=
  ({ w with cellQueue := [] }, [WorkerMsg.map_add_cells w.cellQueue])

/-- `WorkerWorldMap.putCell`: delegate to the base `putCell`, then either post
the triple immediately (`alwaysUpdate`) or enqueue it and flush once the queue
reaches `maxCellQueue` slots.  Note the triple is pushed unconditionally,
whether or not the base write was rejected. -/
def WorkerWorldMap.putCell (w : WorkerWorldMap) (cellType : Cell) (x y : Int) :
    Cell × WorkerWorldMap × List WorkerMsg :=
  let res := w.world.putCell cellType x y
  if w.alwaysUpdate then
    (res.1, { w with world := res.2 }, [WorkerMsg.map_add_cells [(cellType, x, y)]])
  else
    let q := w.cellQueue ++ [(cellType, x, y)]
    if 3 * q.length ≥ w.maxCellQueue then
      (res.1, { w with world := res.2, cellQueue := [] }, [WorkerMsg.map_add_cells q])
    else
      (res.1, { w with world := res.2, cellQueue := q }, [])

/-- `WorkerWorldMap.clearMap`: clear the underlying map and post `map_reset`. -/
def WorkerWorldMap.clearMap (w : WorkerWorldMap) : WorkerWorldMap × List WorkerMsg :=
  ({ w with world := w.world.clearMap }, [WorkerMsg.map_reset])

/-- All cell triples carried by a list of messages, in order. -/
def msgCells (ms : List WorkerMsg) : List (Cell × Int × Int) :=
  ms.flatMap (fun m =>
    match m with
    | WorkerMsg.map_add_cells cs => cs
    | _ => [])

/-- The sizes (in mutations) of the `cells_added` batches in a message list. -/
def batchSizes (ms : List WorkerMsg) : List Nat :=
  ms.filterMap (fun m =>
    match m with
    | WorkerMsg.map_add_cells cs => some cs.length
    | _ => none)

/-- One producer step: a `putCell` on the worker map, accumulating the posted
messages. -/
def runStep (acc : WorkerWorldMap × List WorkerMsg) (r : Cell × Int × Int) :
    WorkerWorldMap × List WorkerMsg :=
  let res := acc.1.putCell r.1 r.2.1 r.2.2
  (res.2.1, acc.2 ++ res.2.2)

/-- Modelled from the spec: the worker-side driver (`pathGen.js`, which is not
under `src/`) issues the producer's `putCell` calls during a run and, per the
spec, "a final partial flush is forced whenever the producer completes its
run" — so a run is the sequence of puts followed by one `sendCellQueue`. -/
def runProducer (w : WorkerWorldMap) (reqs : List (Cell × Int × Int)) :
    WorkerWorldMap × List WorkerMsg :=
  let acc := reqs.foldl runStep (w, [])
  let fin := acc.1.sendCellQueue
  (fin.1, acc.2 ++ fin.2)

/-- The `map_add_cells` branch of the consumer's message listener
(src/unnamed/part_000 lines 137-142): apply each `(state, x, y)` triple through
`putCell`, in order. -/
def applyCells (w : WorldMap) (cells : List (Cell × Int × Int)) : WorldMap :=
  cells.foldl (fun m t => (m.putCell t.1 t.2.1 t.2.2).2) w

/-- The consumer's message listener restricted to its effect on the mirrored
`WORLD_MAP` (the lock messages only touch the `isPathGenLocked` flag). -/
def applyMsg (w : WorldMap) (m : WorkerMsg) : WorldMap :=
  match m with
  | WorkerMsg.map_add_cells cells => applyCells w cells
  | WorkerMsg.map_reset => w.clearMap
  | WorkerMsg.lock_gen => w
  | WorkerMsg.unlock_gen => w

/-- Replaying a whole message sequence on the consumer's mirrored map. -/
def replayMsgs (w : WorldMap) (ms : List WorkerMsg) : WorldMap :=
  ms.foldl applyMsg w

/-- Settings constants of the main consumer script. -/
def MIN_WORLD_SIZE : Int := 8

def MAX_WORLD_SIZE : Int := 400

def MAX_ACTION_TIME : Rat := 100

def MAX_CELL_QUEUE : Nat := 50

/-- The start-request message `generatePath` posts to the path-generation
worker (a positional array in the source). -/
structure StartMsg where
  width : Int
  height : Int
  hasBoundary : Bool
  actionDelay : Option Rat
  maxCellQueue : Nat
  algorithmIndex : Nat
deriving DecidableEq

/-- The consumer-side module state of src/unnamed/part_000: the lock flag, the
mirrored `WORLD_MAP`, the pacing delay (`undefined` is `none`), the selected
algorithm index, and — for reasoning about the protocol — the list of start
messages posted to the worker.  Rendering-only globals (scale, grid flag,
restart message flag, key bindings) are omitted. -/
structure UIState where
  isPathGenLocked : Bool
  world : WorldMap
  actionDelay : Option Rat
  currentAlgorithm : Nat
  postedStarts : List StartMsg
deriving DecidableEq

/-- The `pathGenerator` message listener (src/unnamed/part_000 lines 131-156). -/
def handleWorkerMessage (s : UIState) (m : WorkerMsg) : UIState :=
  match m with
  | WorkerMsg.map_add_cells cells => { s with world := applyCells s.world cells }
  | WorkerMsg.map_reset => { s with world := s.world.clearMap }
  | WorkerMsg.lock_gen => { s with isPathGenLocked := true }
  | WorkerMsg.unlock_gen => { s with isPathGenLocked := false }

/-- `generatePath` (src/unnamed/part_000 lines 161-172): drop the request when
locked, otherwise post the start message with the current configuration. -/
def generatePath (s : UIState) : UIState :=
  if s.isPathGenLocked then s
  else
    { s with
      postedStarts := s.postedStarts ++
        [{ width := s.world.sizeX, height := s.world.sizeY,
           hasBoundary := s.world.hasBoundary, actionDelay := s.actionDelay,
           maxCellQueue := MAX_CELL_QUEUE, algorithmIndex := s.currentAlgorithm }] }

/-- The two axes of `WORLD_MAP.size`. -/
inductive Axis where
  | x
  | y
deriving DecidableEq

/-- Writing one component of `size`. -/
def WorldMap.setSizeAxis (w : WorldMap) (ax : Axis) (v : Int) : WorldMap :=
  match ax with
  | Axis.x => { w with sizeX := v }
  | Axis.y => { w with sizeY := v }

/-- `changeWorldSize` (src/unnamed/part_000 lines 179-189).  `parseInt` of the
input box is modelled as `Option Int` (`none` for NaN); writes to
`element.value` and the scale recomputation are DOM/presentation-only. -/
def changeWorldSize (s : UIState) (newValue : Option Int) (ax : Axis) : UIState :=
  match newValue with
  | none => s
  | some v =>
    if s.isPathGenLocked ∨ v < MIN_WORLD_SIZE ∨ v > MAX_WORLD_SIZE then s
    else { s with world := (s.world.clearMap).setSizeAxis ax v }

/-- `changeActionDelay` (src/unnamed/part_000 lines 198-212).  `parseFloat` is
modelled as `Option Rat` (`none` for NaN); a non-positive delay stores
`undefined` (`none`); placeholder/blur handling is DOM-only. -/
def changeActionDelay (s : UIState) (newDelay : Option Rat) : UIState :=
  match newDelay with
  | none => s
  | some d =>
    if s.isPathGenLocked ∨ d > MAX_ACTION_TIME then s
    else if d ≤ 0 then { s with actionDelay := none }
    else { s with actionDelay := some d }

/-- An event the consumer script reacts to: a worker message, or the user
pressing the restart key (which calls `generatePath`). -/
inductive UIEvent where
  | worker (m : WorkerMsg)
  | pressRestart
deriving DecidableEq

/-- One consumer transition. -/
def stepUI (s : UIState) (e : UIEvent) : UIState :=
  match e with
  | UIEvent.worker m => handleWorkerMessage s m
  | UIEvent.pressRestart => generatePath s

/-- Concrete worlds and states used by the witnesses and counterexamples. -/
def exampleWalledWorld : WorldMap :=
  { sizeX := 10, sizeY := 10, hasBoundary := true, map := [(2, [(3, Cell.WALL)])] }

def exampleBoundedWorld : WorldMap :=
  { sizeX := 5, sizeY := 5, hasBoundary := true, map := [] }

def exampleOpenWorld : WorldMap :=
  { sizeX := 10, sizeY := 10, hasBoundary := false, map := [] }

def exampleWorkerWalled : WorkerWorldMap :=
  { world := exampleWalledWorld, cellQueue := [], alwaysUpdate := false, maxCellQueue := 50 }

def exampleWorkerSmallQueue : WorkerWorldMap :=
  { world := exampleBoundedWorld, cellQueue := [], alwaysUpdate := false, maxCellQueue := 2 }

def exampleLockedUI : UIState :=
  { isPathGenLocked := true, world := exampleBoundedWorld, actionDelay := some 25, currentAlgorithm := 0, postedStarts := [] }

theorem mapFind_mapSet_self {α : Type} (m : List (Int × α)) (k : Int) (v : α) :
    mapFind (mapSet m k v) k = some v := by
  induction m with
  | nil => simp [mapSet, mapFind]
  | cons p rest ih =>
    obtain ⟨k', v'⟩ := p
    by_cases h : k' = k
    · simp [mapSet, h, mapFind]
    · simp [mapSet, h, mapFind, ih]

theorem mapFind_mapSet_ne {α : Type} (m : List (Int × α)) (k k' : Int) (v : α)
    (h : k ≠ k') : mapFind (mapSet m k v) k' = mapFind m k' := by
  induction m with
  | nil => simp [mapSet, mapFind, h]
  | cons p rest ih =>
    obtain ⟨k₀, v₀⟩ := p
    by_cases h₀ : k₀ = k
    · subst h₀
      simp [mapSet, mapFind, h]
    · simp [mapSet, h₀, mapFind, ih]

theorem putCell_sizeX (w : WorldMap) (c : Cell) (a b : Int) :
    ((w.putCell c a b).2).sizeX = w.sizeX := by
  unfold WorldMap.putCell
  by_cases h : PERMANENT_CELL_TYPES (w.getCell a b) = true <;> simp [h]

theorem putCell_sizeY (w : WorldMap) (c : Cell) (a b : Int) :
    ((w.putCell c a b).2).sizeY = w.sizeY := by
  unfold WorldMap.putCell
  by_cases h : PERMANENT_CELL_TYPES (w.getCell a b) = true <;> simp [h]

theorem putCell_hasBoundary (w : WorldMap) (c : Cell) (a b : Int) :
    ((w.putCell c a b).2).hasBoundary = w.hasBoundary := by
  unfold WorldMap.putCell
  by_cases h : PERMANENT_CELL_TYPES (w.getCell a b) = true <;> simp [h]

/-- Writes at one coordinate do not change reads at any other coordinate. -/
theorem getCell_putCell_ne (w : WorldMap) (c : Cell) (a b x y : Int)
    (h : ¬(a = x ∧ b = y)) :
    ((w.putCell c a b).2).getCell x y = w.getCell x y := by
  unfold WorldMap.putCell
  by_cases hperm : PERMANENT_CELL_TYPES (w.getCell a b) = true
  · simp [hperm]
  · simp only [hperm, Bool.false_eq_true, if_false]
    unfold WorldMap.getCell
    by_cases hb : w.hasBoundary ∧ (x < 0 ∨ x ≥ w.sizeX ∨ y < 0 ∨ y ≥ w.sizeY)
    · simp [hb]
    · simp only [hb, if_false]
      by_cases hax : a = x
      · subst hax
        have hby : b ≠ y := fun hh => h ⟨rfl, hh⟩
        rw [mapFind_mapSet_self]
        cases hcol : mapFind w.map a with
        | some col0 => simp [hcol, mapFind_mapSet_ne _ _ _ _ hby]
        | none => simp [hcol, mapSet, mapFind, hby]
      · rw [mapFind_mapSet_ne _ _ _ _ hax]

/-- Reading back the written coordinate: unchanged if the old state was
permanent, the new state otherwise. -/
theorem getCell_putCell_self (w : WorldMap) (c : Cell) (a b : Int) :
    ((w.putCell c a b).2).getCell a b =
      if PERMANENT_CELL_TYPES (w.getCell a b) then w.getCell a b else c := by
  by_cases hperm : PERMANENT_CELL_TYPES (w.getCell a b) = true
  · simp [WorldMap.putCell, hperm]
  · simp only [hperm, Bool.false_eq_true, if_false]
    have hbnd : ¬(w.hasBoundary ∧ (a < 0 ∨ a ≥ w.sizeX ∨ b < 0 ∨ b ≥ w.sizeY)) := by
      intro hbnd
      apply hperm
      have : w.getCell a b = Cell.WALL := by
        unfold WorldMap.getCell
        simp [hbnd]
      rw [this]
      rfl
    unfold WorldMap.putCell
    simp only [hperm, Bool.false_eq_true, if_false]
    unfold WorldMap.getCell
    simp only [hbnd, if_false]
    simp [mapFind_mapSet_self]

/-- A write anywhere preserves the read at a coordinate whose current state is
permanent. -/
theorem getCell_putCell_of_permanent (w : WorldMap) (c : Cell) (a b x y : Int)
    (h : PERMANENT_CELL_TYPES (w.getCell x y) = true) :
    ((w.putCell c a b).2).getCell x y = w.getCell x y := by
  by_cases hxy : a = x ∧ b = y
  · obtain ⟨rfl, rfl⟩ := hxy
    rw [getCell_putCell_self, if_pos h]
  · exact getCell_putCell_ne w c a b x y hxy

/-- Folding any step function that preserves the read at `(x, y)` preserves it
over a whole list. -/
theorem foldl_preserves_getCell {β : Type} (g : WorldMap → β → WorldMap) (x y : Int)
    (v : Cell) (hg : ∀ m e, m.getCell x y = v → (g m e).getCell x y = v) :
    ∀ (l : List β) (m : WorldMap), m.getCell x y = v → (l.foldl g m).getCell x y = v := by
  intro l
  induction l with
  | nil => intro m hm; exact hm
  | cons e rest ih =>
    intro m hm
    exact ih _ (hg m e hm)

/-- Claim C1: a coordinate whose current state is permanent is immutable:
`putCell` with any argument returns the existing state and leaves the map
unchanged, and any `hollowRect` (which funnels all writes through `putCell`)
leaves the read at that coordinate unchanged. -/
theorem putCell_permanent_immutable (w : WorldMap) (c c' : Cell)
    (x y a b rw rh : Int)
    (hperm : PERMANENT_CELL_TYPES (w.getCell x y) = true) :
    w.putCell c x y = (w.getCell x y, w) ∧
    (w.hollowRect c' a b rw rh).getCell x y = w.getCell x y := by
  constructor
  · unfold WorldMap.putCell
    simp [hperm]
  · unfold WorldMap.hollowRect
    apply foldl_preserves_getCell _ x y (w.getCell x y) _ _ w rfl
    intro m relXn hm
    have hpm : PERMANENT_CELL_TYPES (m.getCell x y) = true := by rw [hm]; exact hperm
    by_cases hedge : (relXn : Int) = 0 ∨ (relXn : Int) = rw - 1
    · simp only [hedge, if_true]
      apply foldl_preserves_getCell _ x y (w.getCell x y) _ _ m hm
      intro m2 relYn hm2
      have hpm2 : PERMANENT_CELL_TYPES (m2.getCell x y) = true := by rw [hm2]; exact hperm
      rw [getCell_putCell_of_permanent _ _ _ _ _ _ hpm2, hm2]
    · simp only [hedge, if_false]
      have h1 : ((m.putCell c' (a + (relXn : Int)) b).2).getCell x y = w.getCell x y := by
        rw [getCell_putCell_of_permanent _ _ _ _ _ _ hpm, hm]
      have hpm1 : PERMANENT_CELL_TYPES
          (((m.putCell c' (a + (relXn : Int)) b).2).getCell x y) = true := by
        rw [h1]; exact hperm
      rw [getCell_putCell_of_permanent _ _ _ _ _ _ hpm1, h1]

theorem putCell_permanent_immutable_witness :
    PERMANENT_CELL_TYPES (exampleWalledWorld.getCell 2 3) = true ∧
    (exampleWalledWorld.putCell Cell.EMPTY 2 3 =
        (exampleWalledWorld.getCell 2 3, exampleWalledWorld) ∧
      (exampleWalledWorld.hollowRect Cell.CALCULATED 0 0 6 6).getCell 2 3 =
        exampleWalledWorld.getCell 2 3) :=
  ⟨by decide,
    putCell_permanent_immutable exampleWalledWorld Cell.EMPTY Cell.CALCULATED
      2 3 0 0 6 6 (by decide)⟩

/-- Characterisation of `getCell` through `storedCell` (shared helper). -/
theorem getCell_eq_storedCell (w : WorldMap) (x y : Int) :
    w.getCell x y =
      if w.hasBoundary ∧ (x < 0 ∨ x ≥ w.sizeX ∨ y < 0 ∨ y ≥ w.sizeY) then Cell.WALL
      else (w.storedCell x y).getD Cell.EMPTY := by
  unfold WorldMap.getCell WorldMap.storedCell
  split
  · rfl
  · cases hcol : mapFind w.map x with
    | none => rfl
    | some col =>
      cases hcell : mapFind col y with
      | none => simp [hcell]
      | some cell => simp [hcell]

/-- Claim C2: `getCell` is total: `Wall` outside the bounds of a bounded grid,
otherwise the stored state when set and `EMPTY` (never absent) when unset. -/
theorem getCell_total (w : WorldMap) (x y : Int) :
    w.getCell x y =
      if w.hasBoundary ∧ (x < 0 ∨ x ≥ w.sizeX ∨ y < 0 ∨ y ≥ w.sizeY) then Cell.WALL
      else (w.storedCell x y).getD Cell.EMPTY :=
  getCell_eq_storedCell w x y

/-- Claim C10: on a bounded grid every out-of-bounds coordinate reads `Wall`,
and a `putCell` there is rejected: nothing is stored (the whole map value is
unchanged) and the existing out-of-bounds reading `Wall` is returned. -/
theorem oob_get_wall_put_rejected (w : WorldMap) (c : Cell) (x y : Int)
    (hb : w.hasBoundary = true)
    (hoob : x < 0 ∨ x ≥ w.sizeX ∨ y < 0 ∨ y ≥ w.sizeY) :
    w.getCell x y = Cell.WALL ∧ w.putCell c x y = (Cell.WALL, w) := by
  have hg : w.getCell x y = Cell.WALL := by
    unfold WorldMap.getCell
    rw [if_pos ⟨by rw [hb], hoob⟩]
  refine ⟨hg, ?_⟩
  unfold WorldMap.putCell
  simp [hg, PERMANENT_CELL_TYPES]

theorem oob_get_wall_put_rejected_witness :
    exampleBoundedWorld.hasBoundary = true ∧
    ((-1 : Int) < 0 ∨ (-1 : Int) ≥ exampleBoundedWorld.sizeX ∨ (2 : Int) < 0 ∨
      (2 : Int) ≥ exampleBoundedWorld.sizeY) ∧
    (exampleBoundedWorld.getCell (-1) 2 = Cell.WALL ∧
      exampleBoundedWorld.putCell Cell.CALCULATING (-1) 2 = (Cell.WALL, exampleBoundedWorld)) :=
  ⟨by decide, by decide,
    oob_get_wall_put_rejected exampleBoundedWorld Cell.CALCULATING (-1) 2
      (by decide) (by decide)⟩

/-- Claim C5 (code evaluation): with `diagonals = true` the source appends the
four orthogonal offsets a second time instead of the diagonal offsets, so on an
empty unbounded map the result is each orthogonal neighbour twice and contains
no diagonal coordinate, contradicting the documented behaviour. -/
theorem getNeighbours_diagonals_duplicates :
    exampleOpenWorld.getNeighbours 0 0 true =
      [(1, 0), (-1, 0), (0, 1), (0, -1), (1, 0), (-1, 0), (0, 1), (0, -1)] ∧
    ((1, 1) : Int × Int) ∉ exampleOpenWorld.getNeighbours 0 0 true ∧
    exampleOpenWorld.getNeighbours 0 0 false = [(1, 0), (-1, 0), (0, 1), (0, -1)] := by
  refine ⟨by decide, by decide, by decide⟩

/-- Claim C4 counterexample: on the producer-side map the cell at (2, 3) is
permanent, yet `putCell` still appends the triple to the pending batch. -/
theorem worker_put_rejected_counterexample :
    PERMANENT_CELL_TYPES (exampleWorkerWalled.world.getCell 2 3) = true ∧
    exampleWorkerWalled.alwaysUpdate = false ∧
    exampleWorkerWalled.cellQueue = [] ∧
    (exampleWorkerWalled.putCell Cell.EMPTY 2 3).2.1.cellQueue ≠ [] := by
  refine ⟨by decide, by decide, by decide, by decide⟩

/-- Claim C4 (amended): a `put` on the producer-side (batching) map whose
target is permanent is rejected as a map mutation — the stored map is
unchanged and the existing state is returned — but the triple is still
appended to the pending batch: in threshold mode the cells flushed by this
call plus the remaining queue extend the old queue by exactly the requested
triple. -/
theorem worker_put_rejected_still_enqueued (w : WorkerWorldMap) (c : Cell) (x y : Int)
    (hperm : PERMANENT_CELL_TYPES (w.world.getCell x y) = true)
    (hmode : w.alwaysUpdate = false) :
    (w.putCell c x y).1 = w.world.getCell x y ∧
    (w.putCell c x y).2.1.world = w.world ∧
    msgCells (w.putCell c x y).2.2 ++ (w.putCell c x y).2.1.cellQueue =
      w.cellQueue ++ [(c, x, y)] := by
  have hput : w.world.putCell c x y = (w.world.getCell x y, w.world) := by
    unfold WorldMap.putCell
    simp [hperm]
  unfold WorkerWorldMap.putCell
  rw [hput]
  by_cases hq : w.maxCellQueue ≤ 3 * (w.cellQueue.length + 1)
  · simp [hmode, hq, msgCells]
  · simp [hmode, hq, msgCells]

theorem worker_put_rejected_still_enqueued_witness :
    (PERMANENT_CELL_TYPES (exampleWorkerWalled.world.getCell 2 3) = true ∧
      exampleWorkerWalled.alwaysUpdate = false) ∧
    ((exampleWorkerWalled.putCell Cell.EMPTY 2 3).1 =
        exampleWorkerWalled.world.getCell 2 3 ∧
      (exampleWorkerWalled.putCell Cell.EMPTY 2 3).2.1.world = exampleWorkerWalled.world ∧
      msgCells (exampleWorkerWalled.putCell Cell.EMPTY 2 3).2.2 ++
          (exampleWorkerWalled.putCell Cell.EMPTY 2 3).2.1.cellQueue =
        exampleWorkerWalled.cellQueue ++ [(Cell.EMPTY, 2, 3)]) :=
  ⟨⟨by decide, by decide⟩,
    worker_put_rejected_still_enqueued exampleWorkerWalled Cell.EMPTY 2 3
      (by decide) (by decide)⟩

theorem batchSizes_append (a b : List WorkerMsg) :
    batchSizes (a ++ b) = batchSizes a ++ batchSizes b := by
  simp [batchSizes]

theorem msgCells_append (a b : List WorkerMsg) :
    msgCells (a ++ b) = msgCells a ++ msgCells b := by
  simp [msgCells]

/-- In threshold mode the worker map after a `putCell` holds the enqueued
triple or, on a flush, an emptied queue. -/
theorem workerPutCell_cellQueue (w : WorkerWorldMap) (c : Cell) (x y : Int)
    (hmode : w.alwaysUpdate = false) :
    (w.putCell c x y).2.1.cellQueue =
      (if w.maxCellQueue ≤ 3 * (w.cellQueue.length + 1) then []
        else w.cellQueue ++ [(c, x, y)]) := by
  unfold WorkerWorldMap.putCell
  by_cases hq : w.maxCellQueue ≤ 3 * (w.cellQueue.length + 1) <;> simp [hmode, hq]

/-- In threshold mode the messages posted by one `putCell`: the flushed batch,
or nothing. -/
theorem workerPutCell_msgs (w : WorkerWorldMap) (c : Cell) (x y : Int)
    (hmode : w.alwaysUpdate = false) :
    (w.putCell c x y).2.2 =
      (if w.maxCellQueue ≤ 3 * (w.cellQueue.length + 1) then
        [WorkerMsg.map_add_cells (w.cellQueue ++ [(c, x, y)])]
      else []) := by
  unfold WorkerWorldMap.putCell
  by_cases hq : w.maxCellQueue ≤ 3 * (w.cellQueue.length + 1) <;> simp [hmode, hq]

theorem workerPutCell_world (w : WorkerWorldMap) (c : Cell) (x y : Int) :
    (w.putCell c x y).2.1.world = (w.world.putCell c x y).2 := by
  unfold WorkerWorldMap.putCell
  by_cases h : w.alwaysUpdate = true <;>
    by_cases hq : w.maxCellQueue ≤ 3 * (w.cellQueue.length + 1) <;> simp [h, hq]

theorem workerPutCell_alwaysUpdate (w : WorkerWorldMap) (c : Cell) (x y : Int) :
    (w.putCell c x y).2.1.alwaysUpdate = w.alwaysUpdate := by
  unfold WorkerWorldMap.putCell
  by_cases h : w.alwaysUpdate = true <;>
    by_cases hq : w.maxCellQueue ≤ 3 * (w.cellQueue.length + 1) <;> simp [h, hq]

theorem workerPutCell_maxCellQueue (w : WorkerWorldMap) (c : Cell) (x y : Int) :
    (w.putCell c x y).2.1.maxCellQueue = w.maxCellQueue := by
  unfold WorkerWorldMap.putCell
  by_cases h : w.alwaysUpdate = true <;>
    by_cases hq : w.maxCellQueue ≤ 3 * (w.cellQueue.length + 1) <;> simp [h, hq]

/-- The message accumulator of the producer fold only ever grows: folding from
`(w, ms)` yields the same state as folding from `(w, [])` with `ms` prefixed
to the messages. -/
theorem foldl_runStep_msgs (reqs : List (Cell × Int × Int)) :
    ∀ (w : WorkerWorldMap) (ms : List WorkerMsg),
      reqs.foldl runStep (w, ms) =
        ((reqs.foldl runStep (w, [])).1, ms ++ (reqs.foldl runStep (w, [])).2) := by
  induction reqs with
  | nil => intro w ms; simp
  | cons r rest ih =>
    intro w ms
    simp only [List.foldl_cons]
    rcases hp : runStep (w, []) r with ⟨w1, m1⟩
    have hw1 : (w.putCell r.1 r.2.1 r.2.2).2.1 = w1 := by
      simpa [runStep] using congrArg Prod.fst hp
    have hm1 : (w.putCell r.1 r.2.1 r.2.2).2.2 = m1 := by
      simpa [runStep] using congrArg Prod.snd hp
    have h1 : runStep (w, ms) r = (w1, ms ++ m1) := by
      simp [runStep, hw1, hm1]
    rw [h1, ih w1 (ms ++ m1), ih w1 m1]
    simp

/-- Splitting the first step off a producer run. -/
theorem runProducer_cons (w : WorkerWorldMap) (r : Cell × Int × Int)
    (rest : List (Cell × Int × Int)) :
    runProducer w (r :: rest) =
      ((runProducer (runStep (w, []) r).1 rest).1,
        (runStep (w, []) r).2 ++ (runProducer (runStep (w, []) r).1 rest).2) := by
  rcases hp : runStep (w, []) r with ⟨w1, m1⟩
  simp only [runProducer, List.foldl_cons, hp]
  rw [foldl_runStep_msgs rest w1 m1]
  simp

/-- Batch-size structure of a whole producer run in threshold mode: with
`maxCellQueue = k` and `m = (k + 2) / 3` (the number of mutations that fills
`k` queue slots), every non-final batch has exactly `m` mutations and the
final forced flush carries the remainder. -/
theorem runProducer_batchSizes (k m : Nat) (hk : 1 ≤ k) (hm : m = (k + 2) / 3) :
    ∀ (reqs : List (Cell × Int × Int)) (w : WorkerWorldMap),
      w.alwaysUpdate = false → w.maxCellQueue = k → w.cellQueue.length < m →
      batchSizes (runProducer w reqs).2 =
        List.replicate ((w.cellQueue.length + reqs.length) / m) m ++
          [(w.cellQueue.length + reqs.length) % m] := by
  have hm1 : 1 ≤ m := by omega
  intro reqs
  induction reqs with
  | nil =>
    intro w hmode hmax hlen
    simp only [runProducer, List.foldl_nil, WorkerWorldMap.sendCellQueue]
    simp [batchSizes, Nat.div_eq_of_lt hlen, Nat.mod_eq_of_lt hlen]
  | cons r rest ih =>
    intro w hmode hmax hlen
    rw [runProducer_cons, batchSizes_append]
    rcases hp : runStep (w, []) r with ⟨w1, m1⟩
    have hw1 : w1 = (w.putCell r.1 r.2.1 r.2.2).2.1 := by
      have h := congrArg Prod.fst hp
      simpa [runStep] using h.symm
    have hm1eq : m1 = (w.putCell r.1 r.2.1 r.2.2).2.2 := by
      have h := congrArg Prod.snd hp
      simpa [runStep] using h.symm
    show batchSizes m1 ++ batchSizes (runProducer w1 rest).2 =
      List.replicate ((w.cellQueue.length + (r :: rest).length) / m) m ++
        [(w.cellQueue.length + (r :: rest).length) % m]
    have hAup : w1.alwaysUpdate = false := by
      rw [hw1, workerPutCell_alwaysUpdate]; exact hmode
    have hMax : w1.maxCellQueue = k := by
      rw [hw1, workerPutCell_maxCellQueue]; exact hmax
    by_cases hflush : w.maxCellQueue ≤ 3 * (w.cellQueue.length + 1)
    · have hq1 : w1.cellQueue = [] := by
        rw [hw1, workerPutCell_cellQueue w r.1 r.2.1 r.2.2 hmode, if_pos hflush]
      have hm1' : m1 = [WorkerMsg.map_add_cells (w.cellQueue ++ [(r.1, r.2.1, r.2.2)])] := by
        rw [hm1eq, workerPutCell_msgs w r.1 r.2.1 r.2.2 hmode, if_pos hflush]
      have hrest := ih w1 hAup hMax (by rw [hq1]; exact hm1)
      rw [hm1', hrest, hq1]
      have hjm : w.cellQueue.length + 1 = m := by omega
      have htot : ([] : List (Cell × Int × Int)).length + rest.length = rest.length := by simp
      rw [htot]
      have htot2 : w.cellQueue.length + (r :: rest).length = rest.length + m := by
        simp only [List.length_cons]
        omega
      rw [htot2, Nat.add_div_right _ hm1, Nat.add_mod_right, List.replicate_succ]
      simp [batchSizes, hjm]
    · have hq1 : w1.cellQueue = w.cellQueue ++ [(r.1, r.2.1, r.2.2)] := by
        rw [hw1, workerPutCell_cellQueue w r.1 r.2.1 r.2.2 hmode, if_neg hflush]
      have hm1' : m1 = [] := by
        rw [hm1eq, workerPutCell_msgs w r.1 r.2.1 r.2.2 hmode, if_neg hflush]
      have hlen1 : w1.cellQueue.length < m := by
        rw [hq1]
        simp only [List.length_append, List.length_cons, List.length_nil]
        omega
      have hrest := ih w1 hAup hMax hlen1
      rw [hm1', hrest, hq1]
      have harith : (w.cellQueue ++ [(r.1, r.2.1, r.2.2)]).length + rest.length =
          w.cellQueue.length + (r :: rest).length := by
        simp only [List.length_append, List.length_cons, List.length_nil]
        omega
      rw [harith]
      simp [batchSizes]

/-- Claim C3 counterexample: with `maxBatchSize = 2` and two accepted
mutations the run emits two non-final singleton batches and an empty final
flush (`[1, 1, 0]`), not `floor(2/2) = 1` non-final batch of exactly `2`
mutations followed by a final flush of `2 mod 2 = 0` (`[2, 0]`). -/
theorem batch_flush_claim_counterexample :
    batchSizes (runProducer exampleWorkerSmallQueue
        [(Cell.CALCULATING, 0, 0), (Cell.CALCULATING, 1, 0)]).2 = [1, 1, 0] ∧
    batchSizes (runProducer exampleWorkerSmallQueue
        [(Cell.CALCULATING, 0, 0), (Cell.CALCULATING, 1, 0)]).2 ≠
      List.replicate (2 / 2) 2 ++ [2 % 2] :=
  ⟨by decide, by decide⟩

/-- Claim C3 (amended): the JS queue counts three slots per mutation against
`maxBatchSize = k`, so for `k ≥ 1` a flush happens every `m = ceil(k/3) =
(k + 2) / 3` mutations: a threshold-batched run of `N` puts emits exactly
`N / m` non-final `cells_added` batches of exactly `m` mutations each,
followed by one final forced flush of `N % m` mutations (possibly zero), so no
mutation is dropped. -/
theorem batch_flush_amended (w : WorkerWorldMap) (reqs : List (Cell × Int × Int)) (k : Nat)
    (hmode : w.alwaysUpdate = false) (hmax : w.maxCellQueue = k) (hk : 1 ≤ k)
    (hq : w.cellQueue = []) :
    batchSizes (runProducer w reqs).2 =
      List.replicate (reqs.length / ((k + 2) / 3)) ((k + 2) / 3) ++
        [reqs.length % ((k + 2) / 3)] := by
  have h := runProducer_batchSizes k ((k + 2) / 3) hk rfl reqs w hmode hmax
    (by rw [hq]; simp; omega)
  rw [hq] at h
  simpa using h

theorem batch_flush_amended_witness :
    (exampleWorkerSmallQueue.alwaysUpdate = false ∧
      exampleWorkerSmallQueue.maxCellQueue = 2 ∧ 1 ≤ 2 ∧
      exampleWorkerSmallQueue.cellQueue = []) ∧
    batchSizes (runProducer exampleWorkerSmallQueue
        [(Cell.CALCULATING, 0, 0), (Cell.CALCULATING, 1, 0)]).2 =
      List.replicate (2 / ((2 + 2) / 3)) ((2 + 2) / 3) ++ [2 % ((2 + 2) / 3)] :=
  ⟨⟨by decide, by decide, by decide, by decide⟩,
    batch_flush_amended exampleWorkerSmallQueue
      [(Cell.CALCULATING, 0, 0), (Cell.CALCULATING, 1, 0)] 2
      (by decide) (by decide) (by decide) (by decide)⟩

theorem applyCells_append (c : WorldMap) (a b : List (Cell × Int × Int)) :
    applyCells c (a ++ b) = applyCells (applyCells c a) b := by
  simp [applyCells, List.foldl_append]

theorem replayMsgs_append (c : WorldMap) (a b : List WorkerMsg) :
    replayMsgs c (a ++ b) = replayMsgs (replayMsgs c a) b := by
  simp [replayMsgs, List.foldl_append]

/-- Producer/consumer simulation invariant: at every point of a threshold-mode
run, applying the still-queued triples on top of the already-replayed messages
reproduces the producer's world. -/
theorem fold_replay_inv (reqs : List (Cell × Int × Int)) :
    ∀ (w : WorkerWorldMap) (c : WorldMap),
      w.alwaysUpdate = false →
      applyCells c w.cellQueue = w.world →
      (reqs.foldl runStep (w, [])).1.alwaysUpdate = false ∧
      applyCells (replayMsgs c (reqs.foldl runStep (w, [])).2)
          (reqs.foldl runStep (w, [])).1.cellQueue =
        (reqs.foldl runStep (w, [])).1.world := by
  induction reqs with
  | nil =>
    intro w c hmode hinv
    simpa [replayMsgs] using ⟨hmode, hinv⟩
  | cons r rest ih =>
    intro w c hmode hinv
    simp only [List.foldl_cons]
    rcases hp : runStep (w, []) r with ⟨w1, m1⟩
    have hw1 : w1 = (w.putCell r.1 r.2.1 r.2.2).2.1 := by
      have h := congrArg Prod.fst hp
      simpa [runStep] using h.symm
    have hm1eq : m1 = (w.putCell r.1 r.2.1 r.2.2).2.2 := by
      have h := congrArg Prod.snd hp
      simpa [runStep] using h.symm
    rw [foldl_runStep_msgs rest w1 m1]
    have hAup : w1.alwaysUpdate = false := by
      rw [hw1, workerPutCell_alwaysUpdate]; exact hmode
    have hworld1 : w1.world = (w.world.putCell r.1 r.2.1 r.2.2).2 := by
      rw [hw1, workerPutCell_world]
    have hnext : applyCells (replayMsgs c m1) w1.cellQueue = w1.world := by
      by_cases hflush : w.maxCellQueue ≤ 3 * (w.cellQueue.length + 1)
      · have hq1 : w1.cellQueue = [] := by
          rw [hw1, workerPutCell_cellQueue w r.1 r.2.1 r.2.2 hmode, if_pos hflush]
        have hm1' : m1 = [WorkerMsg.map_add_cells (w.cellQueue ++ [(r.1, r.2.1, r.2.2)])] := by
          rw [hm1eq, workerPutCell_msgs w r.1 r.2.1 r.2.2 hmode, if_pos hflush]
        rw [hq1, hm1', hworld1]
        simp only [replayMsgs, List.foldl_cons, List.foldl_nil, applyMsg]
        rw [applyCells_append, hinv]
        simp [applyCells]
      · have hq1 : w1.cellQueue = w.cellQueue ++ [(r.1, r.2.1, r.2.2)] := by
          rw [hw1, workerPutCell_cellQueue w r.1 r.2.1 r.2.2 hmode, if_neg hflush]
        have hm1' : m1 = [] := by
          rw [hm1eq, workerPutCell_msgs w r.1 r.2.1 r.2.2 hmode, if_neg hflush]
        rw [hq1, hm1', hworld1]
        simp only [replayMsgs, List.foldl_nil]
        rw [applyCells_append, hinv]
        simp [applyCells]
    have hres := ih w1 (replayMsgs c m1) hAup hnext
    refine ⟨hres.1, ?_⟩
    rw [replayMsgs_append]
    exact hres.2

/-- Reassociating the producer run into its fold part and its final flush. -/
theorem runProducer_eq (w : WorkerWorldMap) (reqs : List (Cell × Int × Int)) :
    runProducer w reqs =
      ((reqs.foldl runStep (w, [])).1.sendCellQueue.1,
        (reqs.foldl runStep (w, [])).2 ++ (reqs.foldl runStep (w, [])).1.sendCellQueue.2) := by
  simp [runProducer]

/-- Claim C6: replaying the full sequence of emitted batches, in producer
order, through the consumer's per-triple put loop and starting from the same
empty mirrored map, reproduces the producer's map at run completion; in
particular `getCell` agrees at every coordinate. -/
theorem replay_batches_reproduces_producer (w : WorkerWorldMap)
    (reqs : List (Cell × Int × Int)) (c : WorldMap)
    (hmode : w.alwaysUpdate = false) (hq : w.cellQueue = [])
    (hempty : w.world.map = []) (hc : c = w.world) :
    replayMsgs c (runProducer w reqs).2 = (runProducer w reqs).1.world ∧
    ∀ x y : Int, (replayMsgs c (runProducer w reqs).2).getCell x y =
      ((runProducer w reqs).1.world).getCell x y := by
  have hinv := fold_replay_inv reqs w c hmode (by rw [hq, hc]; rfl)
  rw [runProducer_eq]
  rcases hacc : reqs.foldl runStep (w, []) with ⟨F, E⟩
  rw [hacc] at hinv
  have hfirst : replayMsgs c (E ++ F.sendCellQueue.2) = F.sendCellQueue.1.world := by
    rw [replayMsgs_append]
    simp only [WorkerWorldMap.sendCellQueue]
    simp only [replayMsgs, List.foldl_cons, List.foldl_nil, applyMsg]
    exact hinv.2
  exact ⟨hfirst, fun x y => by rw [hfirst]⟩

theorem replay_batches_reproduces_producer_witness :
    (exampleWorkerSmallQueue.alwaysUpdate = false ∧
      exampleWorkerSmallQueue.cellQueue = [] ∧
      exampleWorkerSmallQueue.world.map = []) ∧
    replayMsgs exampleWorkerSmallQueue.world
        (runProducer exampleWorkerSmallQueue
          [(Cell.CALCULATING, 0, 0), (Cell.WALL, 1, 1)]).2 =
      (runProducer exampleWorkerSmallQueue
          [(Cell.CALCULATING, 0, 0), (Cell.WALL, 1, 1)]).1.world :=
  ⟨⟨by decide, by decide, by decide⟩,
    (replay_batches_reproduces_producer exampleWorkerSmallQueue
        [(Cell.CALCULATING, 0, 0), (Cell.WALL, 1, 1)] exampleWorkerSmallQueue.world
        (by decide) (by decide) (by decide) rfl).1⟩

/-- While locked and before any `unlock_gen` arrives, no event sequence can
change the list of posted start messages. -/
theorem locked_no_starts (evs : List UIEvent) :
    ∀ (s : UIState), s.isPathGenLocked = true →
      UIEvent.worker WorkerMsg.unlock_gen ∉ evs →
      (evs.foldl stepUI s).postedStarts = s.postedStarts := by
  induction evs with
  | nil => intro s _ _; rfl
  | cons e rest ih =>
    intro s hl hnu
    have hne : e ≠ UIEvent.worker WorkerMsg.unlock_gen := by
      intro h
      exact hnu (by rw [h]; exact List.mem_cons_self _ _)
    have hnu' : UIEvent.worker WorkerMsg.unlock_gen ∉ rest := fun h =>
      hnu (List.mem_cons_of_mem _ h)
    simp only [List.foldl_cons]
    have hstep : (stepUI s e).isPathGenLocked = true ∧
        (stepUI s e).postedStarts = s.postedStarts := by
      cases e with
      | worker m =>
        cases m with
        | map_add_cells cells => exact ⟨hl, rfl⟩
        | map_reset => exact ⟨hl, rfl⟩
        | lock_gen => exact ⟨rfl, rfl⟩
        | unlock_gen => exact absurd rfl hne
      | pressRestart =>
        simp [stepUI, generatePath, hl]
    rw [ih (stepUI s e) hstep.1 hnu', hstep.2]

/-- Claim C7: a start request issued while the coordinator is locked is
silently dropped: `generatePath` posts nothing and changes no state at all,
and consequently no event sequence containing no `unlock_gen` can ever post a
start message — so no second lock can be provoked before the matching
unlock. -/
theorem start_dropped_while_locked (s : UIState) (evs : List UIEvent)
    (hl : s.isPathGenLocked = true)
    (hnu : UIEvent.worker WorkerMsg.unlock_gen ∉ evs) :
    generatePath s = s ∧ (evs.foldl stepUI s).postedStarts = s.postedStarts := by
  refine ⟨by simp [generatePath, hl], locked_no_starts evs s hl hnu⟩

theorem start_dropped_while_locked_witness :
    (exampleLockedUI.isPathGenLocked = true ∧
      UIEvent.worker WorkerMsg.unlock_gen ∉
        [UIEvent.pressRestart, UIEvent.worker WorkerMsg.map_reset,
          UIEvent.pressRestart]) ∧
    (generatePath exampleLockedUI = exampleLockedUI ∧
      ([UIEvent.pressRestart, UIEvent.worker WorkerMsg.map_reset,
          UIEvent.pressRestart].foldl stepUI exampleLockedUI).postedStarts =
        exampleLockedUI.postedStarts) :=
  ⟨⟨by decide, by decide⟩,
    start_dropped_while_locked exampleLockedUI
      [UIEvent.pressRestart, UIEvent.worker WorkerMsg.map_reset, UIEvent.pressRestart]
      (by decide) (by decide)⟩

/-- Claim C9: while locked every reconfiguration command is rejected — the
modelled state (world size, stored cells, action delay) is left entirely
unchanged — and a size or delay change takes effect only when issued unlocked
with a value in the valid range. -/
theorem reconfig_rejected_while_locked (s : UIState) (v : Option Int) (ax : Axis)
    (d : Option Rat) :
    (s.isPathGenLocked = true →
      changeWorldSize s v ax = s ∧ changeActionDelay s d = s) ∧
    (changeWorldSize s v ax ≠ s →
      s.isPathGenLocked = false ∧
        ∃ n, v = some n ∧ MIN_WORLD_SIZE ≤ n ∧ n ≤ MAX_WORLD_SIZE) ∧
    (changeActionDelay s d ≠ s →
      s.isPathGenLocked = false ∧ ∃ q, d = some q ∧ q ≤ MAX_ACTION_TIME) := by
  refine ⟨?_, ?_, ?_⟩
  · intro hl
    constructor
    · cases v with
      | none => rfl
      | some n => simp [changeWorldSize, hl]
    · cases d with
      | none => rfl
      | some q => simp [changeActionDelay, hl]
  · intro hch
    cases v with
    | none => exact absurd rfl hch
    | some n =>
      by_cases hcond : s.isPathGenLocked = true ∨ n < MIN_WORLD_SIZE ∨ n > MAX_WORLD_SIZE
      · exact absurd (by simp [changeWorldSize, hcond]) hch
      · push_neg at hcond
        exact ⟨by simpa using hcond.1, n, rfl, hcond.2.1, hcond.2.2⟩
  · intro hch
    cases d with
    | none => exact absurd rfl hch
    | some q =>
      by_cases hcond : s.isPathGenLocked = true ∨ q > MAX_ACTION_TIME
      · exact absurd (by simp [changeActionDelay, hcond]) hch
      · push_neg at hcond
        exact ⟨by simpa using hcond.1, q, rfl, hcond.2⟩

theorem reconfig_rejected_while_locked_witness :
    exampleLockedUI.isPathGenLocked = true ∧
    (changeWorldSize exampleLockedUI (some 20) Axis.x = exampleLockedUI ∧
      changeActionDelay exampleLockedUI (some 10) = exampleLockedUI) :=
  ⟨by decide,
    (reconfig_rejected_while_locked exampleLockedUI (some 20) Axis.x (some 10)).1
      (by decide)⟩

theorem mapFind_eq_none {α : Type} (l : List (Int × α)) (k : Int)
    (h : k ∉ l.map Prod.fst) : mapFind l k = none := by
  induction l with
  | nil => rfl
  | cons p rest ih =>
    obtain ⟨k', v⟩ := p
    have hk : ¬(k' = k) := by
      intro he
      exact h (by simp [he])
    have hrest : k ∉ rest.map Prod.fst := fun hm => h (by simp [hm])
    simp [mapFind, hk, ih hrest]

/-- The snapshot is the concatenation of the per-column contributions. -/
theorem mapToNodePairArray_true_eq (w : WorldMap) :
    w.mapToNodePairArray true = w.map.flatMap (fun p => pairsOfCol p.1 p.2) := by
  simp [WorldMap.mapToNodePairArray, pairsOfCol]

theorem pairsOfCol_fst (k : Int) (col : List (Int × Cell)) (p : (Int × Int) × Cell)
    (h : p ∈ pairsOfCol k col) : p.1.1 = k := by
  unfold pairsOfCol at h
  rw [List.mem_filterMap] at h
  obtain ⟨q, _, hq⟩ := h
  by_cases hcond : q.2 != Cell.EMPTY
  · rw [if_pos hcond] at hq
    cases hq
    rfl
  · rw [if_neg hcond] at hq
    cases hq

theorem filterMap_if_sublist {α β : Type} (l : List α) (p : α → Bool) (g : α → β) :
    List.Sublist (l.filterMap (fun a => if p a then some (g a) else none)) (l.map g) := by
  induction l with
  | nil => simp
  | cons a rest ih =>
    by_cases hp : p a = true
    · simpa [hp] using List.Sublist.cons₂ (g a) ih
    · simpa [hp] using List.Sublist.cons (g a) ih

/-- The coordinates listed by `pairsOfCol` are `k` paired with the column's
keys, without duplicates when the column is well-formed. -/
theorem pairsOfCol_coords_nodup (k : Int) (col : List (Int × Cell))
    (hnd : (col.map Prod.fst).Nodup) :
    ((pairsOfCol k col).map Prod.fst).Nodup := by
  have heq : (pairsOfCol k col).map Prod.fst =
      col.filterMap (fun q => if q.2 != Cell.EMPTY then some (k, q.1) else none) := by
    unfold pairsOfCol
    rw [List.map_filterMap]
    congr 1
    funext q
    by_cases hq : q.2 != Cell.EMPTY <;> simp [hq]
  rw [heq]
  have hsub := filterMap_if_sublist col (fun q => q.2 != Cell.EMPTY)
    (fun q => ((k, q.1) : Int × Int))
  apply List.Nodup.sublist hsub
  have : (col.map fun q => ((k, q.1) : Int × Int)) =
      (col.map Prod.fst).map (fun a => (k, a)) := by
    rw [List.map_map]
    rfl
  rw [this]
  apply List.Nodup.map _ hnd
  intro a b hab
  simpa using hab

theorem fst_mem_of_mem_pairs (l : List (Int × List (Int × Cell))) (z : (Int × Int) × Cell)
    (hz : z ∈ l.flatMap (fun p => pairsOfCol p.1 p.2)) : z.1.1 ∈ l.map Prod.fst := by
  rw [List.mem_flatMap] at hz
  obtain ⟨p, hp, hzp⟩ := hz
  rw [pairsOfCol_fst p.1 p.2 z hzp]
  exact List.mem_map_of_mem Prod.fst hp

theorem flatMap_pairs_coords_nodup (l : List (Int × List (Int × Cell)))
    (houter : (l.map Prod.fst).Nodup)
    (hcols : ∀ p ∈ l, (p.2.map Prod.fst).Nodup) :
    ((l.flatMap (fun p => pairsOfCol p.1 p.2)).map Prod.fst).Nodup := by
  induction l with
  | nil => simp
  | cons p rest ih =>
    obtain ⟨k, col⟩ := p
    rw [List.flatMap_cons, List.map_append]
    have h1 : ((pairsOfCol k col).map Prod.fst).Nodup :=
      pairsOfCol_coords_nodup k col (hcols (k, col) (List.mem_cons_self _ _))
    have houter' : (rest.map Prod.fst).Nodup := (List.nodup_cons.mp houter).2
    have hknot : k ∉ rest.map Prod.fst := by
      simpa using (List.nodup_cons.mp houter).1
    have h2 := ih houter' (fun q hq => hcols q (List.mem_cons_of_mem _ hq))
    apply List.Nodup.append h1 h2
    intro z hz1 hz2
    have hzk : z.1 = k := by
      rw [List.mem_map] at hz1
      obtain ⟨p', hp', rfl⟩ := hz1
      exact pairsOfCol_fst k col p' hp'
    have hzrest : z.1 ∈ rest.map Prod.fst := by
      rw [List.mem_map] at hz2
      obtain ⟨zc, hzc, rfl⟩ := hz2
      exact fst_mem_of_mem_pairs rest zc hzc
    rw [hzk] at hzrest
    exact hknot hzrest

/-- With unique keys at both levels, the snapshot lists every coordinate at
most once. -/
theorem toPairs_coords_nodup (w : WorldMap) (hwf : w.WF) :
    ((w.mapToNodePairArray true).map Prod.fst).Nodup := by
  rw [mapToNodePairArray_true_eq]
  exact flatMap_pairs_coords_nodup w.map hwf.1 hwf.2

/-- Replaying a pair list with pairwise-distinct coordinates: the read at a
coordinate becomes the listed value unless the starting state there was
permanent (the write is then rejected), and stays the starting read if the
coordinate is not listed. -/
theorem getCell_replayPairs (ps : List ((Int × Int) × Cell))
    (hnd : (ps.map Prod.fst).Nodup) (x y : Int) :
    ∀ m : WorldMap,
      (replayPairs m ps).getCell x y =
        match ps.find? (fun p => p.1 == ((x, y) : Int × Int)) with
        | some p =>
          if PERMANENT_CELL_TYPES (m.getCell x y) then m.getCell x y else p.2
        | none => m.getCell x y := by
  induction ps with
  | nil =>
    intro m
    rfl
  | cons p rest ih =>
    intro m
    obtain ⟨⟨a, b⟩, v⟩ := p
    have hnd' : (rest.map Prod.fst).Nodup := (List.nodup_cons.mp hnd).2
    have hnotmem : ((a, b) : Int × Int) ∉ rest.map Prod.fst := by
      simpa using (List.nodup_cons.mp hnd).1
    have hstep : replayPairs m (((a, b), v) :: rest) =
        replayPairs ((m.putCell v a b).2) rest := by
      simp [replayPairs]
    rw [hstep, ih hnd' ((m.putCell v a b).2)]
    by_cases hxy : a = x ∧ b = y
    · obtain ⟨rfl, rfl⟩ := hxy
      have hfindrest : rest.find? (fun p => p.1 == ((a, b) : Int × Int)) = none := by
        rw [List.find?_eq_none]
        intro q hq hbeq
        apply hnotmem
        have hq1 : q.1 = (a, b) := by simpa using hbeq
        rw [← hq1]
        exact List.mem_map_of_mem Prod.fst hq
      have hfindcons :
          ((((a, b), v) :: rest).find? (fun p => p.1 == ((a, b) : Int × Int))) =
            some ((a, b), v) :=
        List.find?_cons_of_pos _ (by simp)
      rw [hfindrest, hfindcons, getCell_putCell_self]
    · have hne : ¬((a, b) : Int × Int) = (x, y) := by
        intro h
        exact hxy (by simpa using h)
      have hfindcons :
          ((((a, b), v) :: rest).find? (fun p => p.1 == ((x, y) : Int × Int))) =
            rest.find? (fun p => p.1 == ((x, y) : Int × Int)) :=
        List.find?_cons_of_neg _ (by simp [hne])
      rw [hfindcons, getCell_putCell_ne m v a b x y hxy]

/-- Looking a coordinate up in one column's snapshot block. -/
theorem find?_pairsOfCol (x : Int) (col : List (Int × Cell)) (y : Int)
    (hnd : (col.map Prod.fst).Nodup) :
    (pairsOfCol x col).find? (fun p => p.1 == ((x, y) : Int × Int)) =
      match mapFind col y with
      | some v => if v != Cell.EMPTY then some ((x, y), v) else none
      | none => none := by
  induction col with
  | nil => rfl
  | cons q rest ih =>
    obtain ⟨y', v'⟩ := q
    have hnd' : (rest.map Prod.fst).Nodup := (List.nodup_cons.mp hnd).2
    have hnotmem : y' ∉ rest.map Prod.fst := by
      simpa using (List.nodup_cons.mp hnd).1
    by_cases hy : y' = y
    · subst hy
      by_cases hv : v' = Cell.EMPTY
      · have hcons : pairsOfCol x ((y', v') :: rest) = pairsOfCol x rest := by
          simp [pairsOfCol, hv]
        rw [hcons, ih hnd', mapFind_eq_none rest y' hnotmem]
        simp [mapFind, hv]
      · have hcons : pairsOfCol x ((y', v') :: rest) =
            ((x, y'), v') :: pairsOfCol x rest := by
          simp [pairsOfCol, hv]
        rw [hcons, List.find?_cons_of_pos _ (by simp)]
        simp [mapFind, hv]
    · by_cases hv : v' = Cell.EMPTY
      · have hcons : pairsOfCol x ((y', v') :: rest) = pairsOfCol x rest := by
          simp [pairsOfCol, hv]
        rw [hcons, ih hnd']
        simp [mapFind, hy]
      · have hcons : pairsOfCol x ((y', v') :: rest) =
            ((x, y'), v') :: pairsOfCol x rest := by
          simp [pairsOfCol, hv]
        rw [hcons, List.find?_cons_of_neg _ (by simp [hy]), ih hnd']
        simp [mapFind, hy]

/-- Looking a coordinate up in the whole snapshot equals the nested sparse
lookup, with stored `EMPTY` entries skipped. -/
theorem find?_flatMap_pairs (l : List (Int × List (Int × Cell))) (x y : Int)
    (houter : (l.map Prod.fst).Nodup)
    (hcols : ∀ p ∈ l, (p.2.map Prod.fst).Nodup) :
    (l.flatMap (fun p => pairsOfCol p.1 p.2)).find?
        (fun p => p.1 == ((x, y) : Int × Int)) =
      match (mapFind l x).bind (fun col => mapFind col y) with
      | some v => if v != Cell.EMPTY then some ((x, y), v) else none
      | none => none := by
  induction l with
  | nil => rfl
  | cons p rest ih =>
    obtain ⟨k, col⟩ := p
    rw [List.flatMap_cons, List.find?_append]
    have houter' : (rest.map Prod.fst).Nodup := (List.nodup_cons.mp houter).2
    have hknot : k ∉ rest.map Prod.fst := by
      simpa using (List.nodup_cons.mp houter).1
    by_cases hk : k = x
    · subst hk
      have hrestnone : (rest.flatMap (fun p => pairsOfCol p.1 p.2)).find?
          (fun p => p.1 == ((k, y) : Int × Int)) = none := by
        rw [List.find?_eq_none]
        intro z hz hbeq
        apply hknot
        have hz1 : z.1 = (k, y) := by simpa using hbeq
        have hmem := fst_mem_of_mem_pairs rest z hz
        rw [hz1] at hmem
        exact hmem
      rw [hrestnone, find?_pairsOfCol k col y (hcols (k, col) (List.mem_cons_self _ _))]
      have hfind : mapFind ((k, col) :: rest) k = some col := by
        simp [mapFind]
      rw [hfind]
      cases hcol : mapFind col y with
      | none => simp [hcol]
      | some v => by_cases hv : v = Cell.EMPTY <;> simp [hcol, hv]
    · have hblocknone : (pairsOfCol k col).find?
          (fun p => p.1 == ((x, y) : Int × Int)) = none := by
        rw [List.find?_eq_none]
        intro z hz hbeq
        apply hk
        have hz1 : z.1 = (x, y) := by simpa using hbeq
        have hzk := pairsOfCol_fst k col z hz
        rw [hz1] at hzk
        exact hzk.symm
      have hfind : mapFind ((k, col) :: rest) x = mapFind rest x := by
        simp [mapFind, hk]
      rw [hblocknone, hfind]
      simpa using ih houter' (fun q hq => hcols q (List.mem_cons_of_mem _ hq))

/-- Claim C8: taking the `skipEmpty = true` snapshot of any well-formed map
and replaying every returned pair through `put` on the freshly cleared map
(same size and boundary flag) reproduces a map on which `get` agrees at every
coordinate. -/
theorem toPairs_replay_roundtrip (w : WorldMap) (hwf : w.WF) (x y : Int) :
    (replayPairs w.clearMap (w.mapToNodePairArray true)).getCell x y = w.getCell x y := by
  have hnd := toPairs_coords_nodup w hwf
  rw [getCell_replayPairs (w.mapToNodePairArray true) hnd x y w.clearMap]
  have hfind :
      (w.mapToNodePairArray true).find? (fun p => p.1 == ((x, y) : Int × Int)) =
        match w.storedCell x y with
        | some v => if v != Cell.EMPTY then some ((x, y), v) else none
        | none => none := by
    rw [mapToNodePairArray_true_eq]
    exact find?_flatMap_pairs w.map x y hwf.1 hwf.2
  rw [hfind]
  by_cases hoob : w.hasBoundary ∧ (x < 0 ∨ x ≥ w.sizeX ∨ y < 0 ∨ y ≥ w.sizeY)
  · have hclear : (w.clearMap).getCell x y = Cell.WALL := by
      simp [WorldMap.clearMap, WorldMap.getCell, hoob]
    have horig : w.getCell x y = Cell.WALL := by
      unfold WorldMap.getCell
      rw [if_pos hoob]
    cases hsc : w.storedCell x y with
    | none => simp [hclear, horig]
    | some v =>
      by_cases hv : v != Cell.EMPTY
      · simp [hv, hclear, horig, PERMANENT_CELL_TYPES]
      · simp [hv, hclear, horig]
  · have hclear : (w.clearMap).getCell x y = Cell.EMPTY := by
      simp [WorldMap.clearMap, WorldMap.getCell, hoob, mapFind]
    have horig : w.getCell x y = (w.storedCell x y).getD Cell.EMPTY := by
      rw [getCell_eq_storedCell, if_neg hoob]
    rw [horig]
    cases hsc : w.storedCell x y with
    | none => simp [hclear]
    | some v =>
      by_cases hv : v != Cell.EMPTY
      · simp [hv, hclear, PERMANENT_CELL_TYPES]
      · have hveq : v = Cell.EMPTY := by simpa using hv
        simp [hv, hclear, hveq]

theorem toPairs_replay_roundtrip_witness :
    exampleWalledWorld.WF ∧
    (replayPairs exampleWalledWorld.clearMap
        (exampleWalledWorld.mapToNodePairArray true)).getCell 2 3 =
      exampleWalledWorld.getCell 2 3 :=
  ⟨by decide, toPairs_replay_roundtrip exampleWalledWorld (by decide) 2 3⟩

end PFV
